import Mathlib

/-!
Verification of the SpaceEcho tape-echo DSP core.

Shallow embedding of the per-sample processing code:
`SpaceEchoAudioProcessor` (PluginProcessor.cpp / processor header),
`TapeDelay` (v1.5), `TapeNoise`, and the frame-level head-mix and
reverb/shimmer routing of `processBlock`.  Float arithmetic is modelled
over `ℚ` (transcendental helpers `std::sin` / `std::exp` are abstracted
as an environment of `ℚ → ℚ` functions, and `tanh` in the soft limiter is
modelled over `ℝ` with `Real.tanh`).  Machine `uint32_t` state is carried
as `ℕ` reduced mod `2 ^ 32` at each wrapping operation.
-/

namespace SpaceEcho

/-- Model of `juce::jlimit (lo, hi, v)` on floats:
`v < lo ? lo : (hi < v ? hi : v)`. -/
def jlimit (lo hi v : ℚ) : ℚ :=
  if v < lo then lo else if hi < v then hi else v

/-- Model of `juce::jlimit` on `int`. -/
def jlimitInt (lo hi v : ℤ) : ℤ :=
  if v < lo then lo else if hi < v then hi else v

/-- Model of `juce::jmax (a, b) = a < b ? b : a`. -/
def jmax (a b : ℚ) : ℚ :=
  if a < b then b else a

/-- The float constant `juce::MathConstants<float>::twoPi` (single
precision value of 2π, used verbatim by the code in coefficient
formulas). -/
def twoPi : ℚ := 6.2831855

/-- `SpaceEchoAudioProcessor::ModeConfig`: `bool heads[3]; bool reverb;`. -/
structure ModeConfig where
  heads0 : Bool
  heads1 : Bool
  heads2 : Bool
  reverb : Bool
deriving DecidableEq, Repr

/-- Access `mc.heads[h]` for `h = 0, 1, 2`. -/
def ModeConfig.head (mc : ModeConfig) (h : Fin 3) : Bool :=
  match h with
  | 0 => mc.heads0
  | 1 => mc.heads1
  | 2 => mc.heads2

/-- `SpaceEchoAudioProcessor::MODE_TABLE`, the 12-entry constant table
from PluginProcessor.cpp. -/
def MODE_TABLE : List ModeConfig :=
  [ ⟨true,  false, false, false⟩,  -- 1  : H1
    ⟨false, true,  false, false⟩,  -- 2  : H2
    ⟨false, false, true,  false⟩,  -- 3  : H3
    ⟨true,  true,  false, false⟩,  -- 4  : H1+H2
    ⟨true,  false, true,  false⟩,  -- 5  : H1+H3
    ⟨false, true,  true,  false⟩,  -- 6  : H2+H3
    ⟨true,  true,  true,  false⟩,  -- 7  : ALL
    ⟨true,  false, false, true⟩,   -- 8  : H1+Reverb
    ⟨false, true,  false, true⟩,   -- 9  : H2+Reverb
    ⟨false, false, true,  true⟩,   -- 10 : H3+Reverb
    ⟨true,  true,  true,  true⟩,   -- 11 : ALL+Reverb
    ⟨false, false, false, true⟩ ]  -- 12 : Reverb only

/-- `MODE_TABLE[juce::jlimit (0, 11, mode)]` from `processBlock`. -/
def modeLookup (mode : ℤ) : ModeConfig :=
  MODE_TABLE.getD (jlimitInt 0 11 mode).toNat ⟨false, false, false, false⟩

/-- The active-head count computed in `processBlock`
(`for h: if (mc.heads[h]) ++numHeads`). -/
def numHeads (mc : ModeConfig) : ℕ :=
  (if mc.heads0 then 1 else 0) + (if mc.heads1 then 1 else 0) +
    (if mc.heads2 then 1 else 0)

/-- The accumulation `echo += heads.heads[h]` over the active heads of
the current mode (one channel). -/
def sumActiveHeads (mc : ModeConfig) (h0 h1 h2 : ℚ) : ℚ :=
  (if mc.heads0 then h0 else 0) + (if mc.heads1 then h1 else 0) +
    (if mc.heads2 then h2 else 0)

/-- The head mix of `processBlock`: accumulate the active heads, then
`if (numHeads > 0) echo /= numHeads` — the division is guarded. -/
def echoMix (mc : ModeConfig) (h0 h1 h2 : ℚ) : ℚ :=
  let s := sumActiveHeads mc h0 h1 h2
  if 0 < numHeads mc then s / (numHeads mc : ℚ) else s

/-- `TapeDelay::HEAD_RATIOS = { 1.0f, 1.475f, 2.625f }`. -/
def HEAD_RATIOS (h : Fin 3) : ℚ :=
  match h with
  | 0 => 1
  | 1 => 1.475
  | 2 => 2.625

/-- `TapeDelay::saturate` (v1.5): asymmetric soft clipper.
`amount < 0.001` returns the input unchanged; otherwise
`drive = 1 + amount*4.5`, `xd = x*drive`, positive branch
`xd/(1 + 1.12*xd)`, negative branch `xd/(1 - 0.88*xd)`, result divided
by `drive`. -/
def saturate (x amount : ℚ) : ℚ :=
  if amount < 0.001 then x
  else
    let drive := 1 + amount * 4.5
    let xd := x * drive
    let y := if 0 ≤ xd then xd / (1 + 1.12 * xd) else xd / (1 - 0.88 * xd)
    y / drive

/-- The saturator exactly as the spec sentence describes it (refinement
reference): positive excursions divided by `(1 + 1.12·driven)`, negative
by `(1 − 0.88·driven)`, normalised by the drive factor. -/
def saturateSpecFormula (x amount : ℚ) : ℚ :=
  let drive := 1 + 4.5 * amount
  let xd := x * drive
  (if 0 ≤ xd then xd / (1 + 1.12 * xd) else xd / (1 - 0.88 * xd)) / drive

/-- `SpaceEchoAudioProcessor::softClip`: `std::tanh (x * 0.9f) / 0.9f`,
modelled over the reals. -/
noncomputable def softClip (x : ℝ) : ℝ :=
  Real.tanh (x * 0.9) / 0.9

/-- One step of `xorshift32` as written inline in the code
(`s ^= s<<13; s ^= s>>17; s ^= s<<5;` on `uint32_t`). -/
def xorshift32 (s : ℕ) : ℕ :=
  let s1 := (s ^^^ (s <<< 13)) % 2 ^ 32
  let s2 := s1 ^^^ (s1 >>> 17)
  let s3 := (s2 ^^^ (s2 <<< 5)) % 2 ^ 32
  s3

/-- `static_cast<int32_t> (state)`: reinterpret an unsigned 32-bit value
as signed two's complement. -/
def toInt32 (s : ℕ) : ℤ :=
  if s < 2 ^ 31 then (s : ℤ) else (s : ℤ) - 2 ^ 32

/-- The `while (rPos < 0) rPos += bufferSize` loop of
`TapeDelay::readCubic`, in closed form: a negative position is raised by
the smallest multiple of the buffer size making it nonnegative
(`wrapPos_loop` below shows this satisfies the loop's equations). -/
def wrapPos (B : ℕ) (r : ℚ) : ℚ :=
  if r < 0 then r + B * ⌈-r / (B : ℚ)⌉ else r

/-- The Catmull-Rom polynomial of `TapeDelay::readCubic`
(`((a0*t + a1)*t + a2)*t + y1` with the source's coefficients). -/
def CR (y0 y1 y2 y3 t : ℚ) : ℚ :=
  (((-0.5) * y0 + 1.5 * y1 - 1.5 * y2 + 0.5 * y3) * t +
      (y0 - 2.5 * y1 + 2 * y2 - 0.5 * y3)) * t * t +
    ((-0.5) * y0 + 0.5 * y2) * t + y1

/-- The four buffer indices `[im1, i1, i2, i3]` read by
`TapeDelay::readCubic`.  The wrapped position is nonnegative
(`wrapPos_nonneg`), so the C truncating `%` agrees with the Euclidean
`%` used here, and `static_cast<int>` agrees with the floor. -/
def readCubicIndices (B w : ℕ) (d : ℚ) : List ℤ :=
  let r := wrapPos B ((w : ℚ) - d)
  let i1 : ℤ := ⌊r⌋ % (B : ℤ)
  [(i1 - 1 + B) % (B : ℤ), i1, (i1 + 1) % (B : ℤ), (i1 + 2) % (B : ℤ)]

/-- `TapeDelay::readCubic` over a buffer modelled as `ℕ → ℚ`. -/
def readCubic (B : ℕ) (buf : ℕ → ℚ) (w : ℕ) (d : ℚ) : ℚ :=
  let r := wrapPos B ((w : ℚ) - d)
  let i1 : ℤ := ⌊r⌋ % (B : ℤ)
  let t : ℚ := r - ⌊r⌋
  let im1 : ℤ := (i1 - 1 + (B : ℤ)) % (B : ℤ)
  let i2 : ℤ := (i1 + 1) % (B : ℤ)
  let i3 : ℤ := (i1 + 2) % (B : ℤ)
  CR (buf im1.toNat) (buf i1.toNat) (buf i2.toNat) (buf i3.toNat) t

/-- The per-head delay computation of `TapeDelay::process` step 5a:
`jlimit (1, bufferSize-4, baseDelaySamples * HEAD_RATIOS[h] * (1 + totalMod))`. -/
def headDelay (B : ℕ) (base : ℚ) (h : Fin 3) (totalMod : ℚ) : ℚ :=
  jlimit 1 ((B : ℚ) - 4) (base * HEAD_RATIOS h * (1 + totalMod))

/-- A buffer holding a unit impulse at index 0 and zero elsewhere: the
tape content during an impulse-response experiment (the impulse recorded
at write position 0, all other recorded samples zero). -/
def impulseBuf : ℕ → ℚ := fun i => if i = 0 then 1 else 0

/-- The raw playback-head read of the impulse experiment at elapsed
sample `n` (write cursor = `n`), before the per-head filters. -/
def rawReadImpulse (B : ℕ) (d : ℚ) (n : ℕ) : ℚ :=
  readCubic B impulseBuf n d

/-- `TapeDelay` dropout state: the dedicated RNG word and the
countdown/length/gain scalars. -/
structure DropoutState where
  dropRandState : ℕ
  dropoutTimer  : ℕ
  dropoutLen    : ℕ
  dropoutGain   : ℚ
deriving DecidableEq, Repr

/-- Step 3 of `TapeDelay::process` (dropout simulation): recovery ramp
while active, trigger on expired timer (gain from `rand & 0xFF`, length
from `rand >> 8 & 0x7FF`, reschedule `sr*15 + (rand & 0xFFFFF)`), else
count down. -/
def dropoutStep (sr : ℚ) (d : DropoutState) : DropoutState :=
  if 0 < d.dropoutLen then
    let gain := d.dropoutGain + (1 - d.dropoutGain) * 0.004
    let len := d.dropoutLen - 1
    { d with dropoutGain := if len = 0 then 1 else gain, dropoutLen := len }
  else if d.dropoutTimer = 0 then
    let r1 := xorshift32 d.dropRandState
    let gain := 0.25 + ((r1 % 256 : ℕ) : ℚ) * (0.25 / 255)
    let len := 1323 + (r1 >>> 8) % 2048
    let r2 := xorshift32 r1
    let timer := (⌊sr * 15⌋).toNat + r2 % 2 ^ 20
    { dropRandState := r2, dropoutTimer := timer, dropoutLen := len,
      dropoutGain := gain }
  else
    { d with dropoutTimer := d.dropoutTimer - 1 }

/-- Abstraction of the float transcendental routines used by
`TapeDelay::process`: `std::sin` and `std::exp` as opaque `ℚ → ℚ`
functions.  The claims proved about the state machine hold for every
such environment. -/
structure FloatEnv where
  sinQ : ℚ → ℚ
  expQ : ℚ → ℚ

/-- `TapeDelay::advancePhase`: `ph += inc; if (ph >= 1) ph -= 1`. -/
def advancePhase (ph inc : ℚ) : ℚ :=
  if 1 ≤ ph + inc then ph + inc - 1 else ph + inc

/-- `HEAD_BASE_FC = { 7000.f, 5200.f, 3800.f }` from
`TapeDelay::process` step 5. -/
def HEAD_BASE_FC (h : Fin 3) : ℚ :=
  match h with
  | 0 => 7000
  | 1 => 5200
  | 2 => 3800

/-- The complete mutable state of a `TapeDelay` (v1.5) instance.  The
sample buffer is modelled as `ℕ → ℚ` with its size carried separately. -/
structure TapeDelayState where
  buffer : ℕ → ℚ
  bufferSize : ℕ
  writePos : ℕ
  sampleRate : ℚ
  frozen : Bool
  wowPhase : ℚ
  wowInc : ℚ
  flutterPhase : ℚ
  flutterInc : ℚ
  flutter2Phase : ℚ
  flutter2Inc : ℚ
  driftPhase : ℚ
  driftInc : ℚ
  randState : ℕ
  randomFlutter : ℚ
  drop : DropoutState
  headLpState : Fin 3 → ℚ
  bumpHiState : Fin 3 → ℚ
  bumpLoState : Fin 3 → ℚ
  hpState : Fin 3 → ℚ
  hpCoeff : ℚ
  refDelaySamples : ℚ

/-- Step 5 of `TapeDelay::process` for a single head `h`, reading the
post-write buffer `buf`: Catmull-Rom read of the clamped modulated
delay, dropout gain, print-through at 0.92× the delay, speed-dependent
head-gap lowpass, DC-removal highpass, head-bump bandpass.  Returns
`(head output before crosstalk, lp state, hp state, bumpHi state,
bumpLo state)`. -/
def headStage (env : FloatEnv) (s : TapeDelayState) (buf : ℕ → ℚ)
    (baseDelaySamples totalMod dropGain : ℚ) (h : Fin 3) :
    ℚ × ℚ × ℚ × ℚ × ℚ :=
  let sr := s.sampleRate
  let speedRatio := s.refDelaySamples / jmax 1 baseDelaySamples
  let bumpHiInc := 1 - env.expQ (-(twoPi * 270 / sr))
  let bumpLoInc := 1 - env.expQ (-(twoPi * 85 / sr))
  let delay := jlimit 1 ((s.bufferSize : ℚ) - 4)
    (baseDelaySamples * HEAD_RATIOS h * (1 + totalMod))
  let raw0 := readCubic s.bufferSize buf s.writePos delay * dropGain
  let ptDelay := jlimit 1 ((s.bufferSize : ℚ) - 4) (delay * 0.92)
  let raw1 := raw0 + readCubic s.bufferSize buf s.writePos ptDelay * 0.018
  let fc := jlimit 1800 9000 (HEAD_BASE_FC h * speedRatio)
  let lpc := env.expQ (-(twoPi * fc / sr))
  let lp := lpc * s.headLpState h + (1 - lpc) * raw1
  let y := lp - s.hpState h
  let hp := s.hpCoeff * s.hpState h + (1 - s.hpCoeff) * lp
  let hi := s.bumpHiState h + bumpHiInc * (y - s.bumpHiState h)
  let lo := s.bumpLoState h + bumpLoInc * (y - s.bumpLoState h)
  (y + (hi - lo) * 0.28, lp, hp, hi, lo)

/-- One sample of `TapeDelay::process` (v1.5): LFOs and organic flutter,
motor drift, dropout machine, record head (suppressed when frozen),
3-head playback with per-head processing, inter-head crosstalk, circular
write-cursor advance.  Returns the new state and the three head
outputs. -/
def tapeDelayProcess (env : FloatEnv) (s : TapeDelayState)
    (input baseDelaySamples feedbackSignal wowFlutterAmt saturationAmt : ℚ) :
    TapeDelayState × (Fin 3 → ℚ) :=
  let wow := env.sinQ (s.wowPhase * twoPi)
  let wowPhase := advancePhase s.wowPhase s.wowInc
  let flt1 := env.sinQ (s.flutterPhase * twoPi)
  let flutterPhase := advancePhase s.flutterPhase s.flutterInc
  let flt2 := env.sinQ (s.flutter2Phase * twoPi)
  let flutter2Phase := advancePhase s.flutter2Phase s.flutter2Inc
  let randSt := xorshift32 s.randState
  let rNoise := (toInt32 randSt : ℚ) * 4.656e-10
  let randomFlutter := s.randomFlutter + 0.000713 * (rNoise - s.randomFlutter)
  let md := (wow * 0.0042 + flt1 * 0.0009 + flt2 * 0.0002 +
    randomFlutter * 0.025) * wowFlutterAmt
  let drift := env.sinQ (s.driftPhase * twoPi) * 0.0015
  let driftPhase := advancePhase s.driftPhase s.driftInc
  let totalMod := md + drift
  let drop := dropoutStep s.sampleRate s.drop
  let toWrite := saturate (input + feedbackSignal) saturationAmt
  let buf := if s.frozen then s.buffer
    else Function.update s.buffer s.writePos toWrite
  let stage := fun h =>
    headStage env s buf baseDelaySamples totalMod drop.dropoutGain h
  let preXT : Fin 3 → ℚ := fun h => (stage h).1
  let outs : Fin 3 → ℚ := fun h =>
    match h with
    | 0 => preXT 0 + preXT 1 * 0.015
    | 1 => preXT 1 + preXT 0 * 0.015 + preXT 2 * 0.015
    | 2 => preXT 2 + preXT 1 * 0.015
  let writePos := if s.writePos + 1 ≥ s.bufferSize then 0 else s.writePos + 1
  ({ s with
      buffer := buf
      writePos := writePos
      wowPhase := wowPhase
      flutterPhase := flutterPhase
      flutter2Phase := flutter2Phase
      driftPhase := driftPhase
      randState := randSt
      randomFlutter := randomFlutter
      drop := drop
      headLpState := fun h => (stage h).2.1
      hpState := fun h => (stage h).2.2.1
      bumpHiState := fun h => (stage h).2.2.2.1
      bumpLoState := fun h => (stage h).2.2.2.2 }, outs)

/-- The reverb/shimmer feedback section of `processBlock` (lines around
the `if (mc.reverb)` branch).  `SpringReverb::process` and
`ShimmerChorus::process` are abstracted as state-threaded processors
`spring : σ → input → σ × output` and
`shimmer : τ → input → amount → τ × output`; the claim depends only on
the routing, not on their internals. -/
structure FrameRevState (σ τ : Type) where
  springL   : σ
  springR   : σ
  shimmerL  : τ
  shimmerR  : τ
  shimFeedL : ℚ
  shimFeedR : ℚ

/-- One sample of the reverb/shimmer section: when the mode has reverb,
feed `in + echo*0.15 + shimFeed` to the spring, pitch-shift the fresh
reverb output and store `0.8×` of it as the next shimmer feedback;
otherwise zero both shimmer feedback terms and output zero reverb. -/
def reverbSection {σ τ : Type} (spring : σ → ℚ → σ × ℚ)
    (shimmer : τ → ℚ → ℚ → τ × ℚ) (mcReverb : Bool)
    (shim inL inR echoL echoR : ℚ) (st : FrameRevState σ τ) :
    FrameRevState σ τ × (ℚ × ℚ) :=
  if mcReverb then
    let pL := spring st.springL (inL + echoL * 0.15 + st.shimFeedL)
    let pR := spring st.springR (inR + echoR * 0.15 + st.shimFeedR)
    let sL := shimmer st.shimmerL pL.2 shim
    let sR := shimmer st.shimmerR pR.2 shim
    ({ springL := pL.1, springR := pR.1, shimmerL := sL.1, shimmerR := sR.1,
       shimFeedL := sL.2 * 0.8, shimFeedR := sR.2 * 0.8 }, (pL.2, pR.2))
  else
    ({ st with shimFeedL := 0, shimFeedR := 0 }, (0, 0))

/-- `TapeNoise` scalar state: PRNG word, the two one-pole filter states,
and the prepare-time filter coefficients. -/
structure TapeNoiseState where
  state   : ℕ
  lpState : ℚ
  hpState : ℚ
  lpCoeff : ℚ
  hpCoeff : ℚ
deriving DecidableEq, Repr

/-- `TapeNoise::process (amount)` from Source/DSP/TapeNoise.h, returning
the updated object state and the produced sample. -/
def tapeNoiseProcess (amount : ℚ) (s : TapeNoiseState) :
    TapeNoiseState × ℚ :=
  if amount < 0.001 then (s, 0)
  else
    let st := xorshift32 s.state
    let noise := (toInt32 st : ℚ) * 4.6566e-10
    let lp := s.lpCoeff * s.lpState + (1 - s.lpCoeff) * noise
    let hp := lp - s.hpState
    let hpSt := s.hpCoeff * s.hpState + (1 - s.hpCoeff) * lp
    ({ s with state := st, lpState := lp, hpState := hpSt },
      hp * amount * 0.04)

end SpaceEcho

namespace SpaceEcho

/-- The closed form of `wrapPos` satisfies the defining equations of
the `while (rPos < 0) rPos += bufferSize` loop. -/
lemma wrapPos_loop (B : ℕ) (hB : 0 < B) (r : ℚ) :
    (r < 0 → wrapPos B r = wrapPos B (r + B)) ∧
    (0 ≤ r → wrapPos B r = r) := by
  have hBq : (0 : ℚ) < B := by exact_mod_cast hB
  constructor
  · intro h
    rw [wrapPos, if_pos h]
    by_cases h2 : r + B < 0
    · rw [wrapPos, if_pos h2]
      have he : -(r + B) / (B : ℚ) = -r / B - 1 := by
        field_simp
        ring
      rw [he, Int.ceil_sub_one]
      push_cast
      ring
    · rw [wrapPos, if_neg h2]
      push_neg at h2
      have hc : ⌈-r / (B : ℚ)⌉ = 1 := by
        rw [Int.ceil_eq_iff]
        constructor
        · have hpos : (0 : ℚ) < -r / B := div_pos (by linarith) hBq
          push_cast
          linarith
        · push_cast
          rw [div_le_one hBq]
          linarith
      rw [hc]
      push_cast
      ring
  · intro h
    rw [wrapPos, if_neg (not_lt.mpr h)]

/-- The wrapped read position is never negative. -/
lemma wrapPos_nonneg (B : ℕ) (hB : 0 < B) (r : ℚ) : 0 ≤ wrapPos B r := by
  have hBq : (0 : ℚ) < B := by exact_mod_cast hB
  unfold wrapPos
  split_ifs with h
  · have h2 : (B : ℚ) * (-r / B) ≤ B * ⌈-r / (B : ℚ)⌉ :=
      mul_le_mul_of_nonneg_left (Int.le_ceil _) hBq.le
    have h3 : (B : ℚ) * (-r / B) = -r := by
      field_simp
      ring
    linarith
  · exact not_lt.mp h

/-- A position that wraps exactly once. -/
lemma wrapPos_neg (B : ℕ) (r : ℚ) (hB : 0 < B) (h1 : r < 0)
    (h2 : -(B : ℚ) ≤ r) : wrapPos B r = r + B := by
  have hBq : (0 : ℚ) < B := by exact_mod_cast hB
  rw [wrapPos, if_pos h1]
  have hc : ⌈-r / (B : ℚ)⌉ = 1 := by
    rw [Int.ceil_eq_iff]
    constructor
    · have hpos : (0 : ℚ) < -r / B := div_pos (by linarith) hBq
      push_cast
      linarith
    · push_cast
      rw [div_le_one hBq]
      linarith
  rw [hc]
  push_cast
  ring

/-- A nonnegative position does not wrap. -/
lemma wrapPos_id (B : ℕ) (r : ℚ) (h : 0 ≤ r) : wrapPos B r = r := by
  rw [wrapPos, if_neg (not_lt.mpr h)]

/-- Catmull-Rom at fraction 0 returns the `y1` tap. -/
lemma CR_t_zero (y0 y1 y2 y3 : ℚ) : CR y0 y1 y2 y3 0 = y1 := by
  unfold CR
  ring

/-- Catmull-Rom kernel weight when the impulse sits at the `y0` tap. -/
lemma CR_1000 (t : ℚ) : CR 1 0 0 0 t = -0.5 * t ^ 3 + t ^ 2 - 0.5 * t := by
  unfold CR
  ring

/-- Catmull-Rom kernel weight when the impulse sits at the `y1` tap. -/
lemma CR_0100 (t : ℚ) : CR 0 1 0 0 t = 1.5 * t ^ 3 - 2.5 * t ^ 2 + 1 := by
  unfold CR
  ring

/-- Catmull-Rom kernel weight when the impulse sits at the `y2` tap. -/
lemma CR_0010 (t : ℚ) : CR 0 0 1 0 t = -1.5 * t ^ 3 + 2 * t ^ 2 + 0.5 * t := by
  unfold CR
  ring

/-- Catmull-Rom kernel weight when the impulse sits at the `y3` tap. -/
lemma CR_0001 (t : ℚ) : CR 0 0 0 1 t = 0.5 * t ^ 3 - 0.5 * t ^ 2 := by
  unfold CR
  ring

/-- Catmull-Rom of four zero taps is zero. -/
lemma CR_0000 (t : ℚ) : CR 0 0 0 0 t = 0 := by
  unfold CR
  ring

/-- Evaluation of `readCubic` once the floor of the wrapped position is
known and in range. -/
lemma readCubic_eval (B : ℕ) (buf : ℕ → ℚ) (w : ℕ) (d : ℚ) (k : ℤ)
    (hfl : ⌊wrapPos B ((w : ℚ) - d)⌋ = k) (h0 : 0 ≤ k)
    (hk : k < (B : ℤ)) :
    readCubic B buf w d =
      CR (buf ((k - 1 + (B : ℤ)) % (B : ℤ)).toNat) (buf k.toNat)
        (buf (((k + 1) % (B : ℤ)).toNat)) (buf (((k + 2) % (B : ℤ)).toNat))
        (wrapPos B ((w : ℚ) - d) - (k : ℚ)) := by
  simp only [readCubic, hfl, Int.emod_eq_of_lt h0 hk]

/-- Variant of `readCubic_eval` with the interpolation fraction given
explicitly. -/
lemma readCubic_eval_t (B : ℕ) (buf : ℕ → ℚ) (w : ℕ) (d : ℚ) (k : ℤ)
    (t : ℚ) (hfl : ⌊wrapPos B ((w : ℚ) - d)⌋ = k) (h0 : 0 ≤ k)
    (hk : k < (B : ℤ)) (ht : wrapPos B ((w : ℚ) - d) - (k : ℚ) = t) :
    readCubic B buf w d =
      CR (buf ((k - 1 + (B : ℤ)) % (B : ℤ)).toNat) (buf k.toNat)
        (buf (((k + 1) % (B : ℤ)).toNat)) (buf (((k + 2) % (B : ℤ)).toNat))
        t := by
  rw [← ht]
  exact readCubic_eval B buf w d k hfl h0 hk

/-- An impulse at index 0 read back at an exact integer delay `M`
(write cursor `M`): the read returns the impulse exactly. -/
lemma rawImpulse_int_self (B M : ℕ) (hB : 9 ≤ B) (hMB : M + 4 ≤ B) :
    rawReadImpulse B ((M : ℚ)) M = 1 := by
  have hBz : (0 : ℤ) < (B : ℤ) := by exact_mod_cast (show 0 < B by omega)
  have hfl : ⌊wrapPos B ((M : ℚ) - (M : ℚ))⌋ = 0 := by
    rw [sub_self, wrapPos_id B 0 le_rfl, Int.floor_zero]
  have ht : wrapPos B ((M : ℚ) - (M : ℚ)) - ((0 : ℤ) : ℚ) = 0 := by
    rw [sub_self, wrapPos_id B 0 le_rfl]
    norm_num
  unfold rawReadImpulse
  rw [readCubic_eval_t B impulseBuf M ((M : ℚ)) 0 0 hfl le_rfl hBz ht,
    CR_t_zero]
  simp [impulseBuf]

/-- An impulse at index 0 read back at an exact integer delay `M` at
any other write cursor `n < B`: the read returns zero. -/
lemma rawImpulse_int_other (B M n : ℕ) (hB : 9 ≤ B) (hM4 : 4 ≤ M)
    (hMB : M + 4 ≤ B) (hnB : n < B) (hne : n ≠ M) :
    rawReadImpulse B ((M : ℚ)) n = 0 := by
  unfold rawReadImpulse
  rcases lt_or_gt_of_ne hne with hlt | hgt
  · have hnq : (n : ℚ) < M := by exact_mod_cast hlt
    have hMq : (M : ℚ) ≤ B := by exact_mod_cast (show M ≤ B by omega)
    have hn0 : (0 : ℚ) ≤ n := by positivity
    have hwrap : wrapPos B ((n : ℚ) - M) = (n : ℚ) - M + B :=
      wrapPos_neg B _ (by omega) (by linarith) (by linarith)
    have hfl : ⌊wrapPos B ((n : ℚ) - M)⌋ = (n : ℤ) - M + B := by
      rw [hwrap, show ((n : ℚ) - M + B) = (((n : ℤ) - M + B : ℤ) : ℚ) from by
        push_cast
        ring]
      exact Int.floor_intCast _
    have ht : wrapPos B ((n : ℚ) - M) - (((n : ℤ) - M + B : ℤ) : ℚ) = 0 := by
      rw [hwrap]
      push_cast
      ring
    rw [readCubic_eval_t B impulseBuf n ((M : ℚ)) ((n : ℤ) - M + B) 0 hfl
      (by omega) (by omega) ht, CR_t_zero]
    have hy1 : ((n : ℤ) - M + B).toNat ≠ 0 := by omega
    simp [impulseBuf, hy1]
  · have hnq : (M : ℚ) ≤ n := by exact_mod_cast hgt.le
    have hwrap : wrapPos B ((n : ℚ) - M) = (n : ℚ) - M :=
      wrapPos_id B _ (by linarith)
    have hfl : ⌊wrapPos B ((n : ℚ) - M)⌋ = (n : ℤ) - M := by
      rw [hwrap, show ((n : ℚ) - M) = (((n : ℤ) - M : ℤ) : ℚ) from by
        push_cast
        ring]
      exact Int.floor_intCast _
    have ht : wrapPos B ((n : ℚ) - M) - (((n : ℤ) - M : ℤ) : ℚ) = 0 := by
      rw [hwrap]
      push_cast
      ring
    rw [readCubic_eval_t B impulseBuf n ((M : ℚ)) ((n : ℤ) - M) 0 hfl
      (by omega) (by omega) ht, CR_t_zero]
    have hy1 : ((n : ℤ) - M).toNat ≠ 0 := by omega
    simp [impulseBuf, hy1]
    omega

/-- A nonzero buffer index reads zero from the impulse buffer. -/
lemma impulseBuf_ne (j : ℤ) (hj : j.toNat ≠ 0) : impulseBuf j.toNat = 0 := by
  unfold impulseBuf
  rw [if_neg hj]

/-- Index zero reads the impulse. -/
lemma impulseBuf_zero : impulseBuf ((0 : ℤ).toNat) = 1 := rfl

/-- Fractional delay `D ∈ (M, M+1)`, write cursor `M - 1`: the impulse
sits at the `y3` tap with fraction `M + 1 - D`. -/
lemma rawImpulse_at_m1 (B M n : ℕ) (D : ℚ) (hB : 9 ≤ B) (hM4 : 4 ≤ M)
    (hMB : M + 4 ≤ B) (hD1 : (M : ℚ) < D) (hD2 : D < (M : ℚ) + 1)
    (hn : n + 1 = M) :
    rawReadImpulse B D n = CR 0 0 0 1 ((M : ℚ) + 1 - D) := by
  have hMq : ((M : ℕ) : ℚ) = (n : ℚ) + 1 := by exact_mod_cast hn.symm
  rw [hMq] at hD1 hD2
  have hBge : (9 : ℚ) ≤ B := by exact_mod_cast hB
  have hwrap : wrapPos B ((n : ℚ) - D) = (n : ℚ) - D + B :=
    wrapPos_neg B _ (by omega) (by linarith) (by linarith)
  have hfl : ⌊wrapPos B ((n : ℚ) - D)⌋ = (B : ℤ) - 2 := by
    rw [hwrap, Int.floor_eq_iff]
    constructor
    · push_cast
      linarith
    · push_cast
      linarith
  have ht : wrapPos B ((n : ℚ) - D) - (((B : ℤ) - 2 : ℤ) : ℚ) =
      (M : ℚ) + 1 - D := by
    rw [hwrap, hMq]
    push_cast
    ring
  unfold rawReadImpulse
  rw [readCubic_eval_t B impulseBuf n D ((B : ℤ) - 2) ((M : ℚ) + 1 - D) hfl
    (by omega) (by omega) ht]
  have e1 : ((B : ℤ) - 2 - 1 + (B : ℤ)) % (B : ℤ) = (B : ℤ) - 3 := by
    rw [show (B : ℤ) - 2 - 1 + (B : ℤ) = ((B : ℤ) - 3) + (B : ℤ) * 1 from by
      ring, Int.add_mul_emod_self_left,
      Int.emod_eq_of_lt (by omega) (by omega)]
  have e2 : ((B : ℤ) - 2 + 1) % (B : ℤ) = (B : ℤ) - 1 := by
    rw [show (B : ℤ) - 2 + 1 = (B : ℤ) - 1 from by ring,
      Int.emod_eq_of_lt (by omega) (by omega)]
  have e3 : ((B : ℤ) - 2 + 2) % (B : ℤ) = 0 := by
    rw [show (B : ℤ) - 2 + 2 = (B : ℤ) from by ring, Int.emod_self]
  rw [e1, e2, e3]
  have f1 : ((B : ℤ) - 3).toNat ≠ 0 := by omega
  have f2 : ((B : ℤ) - 2).toNat ≠ 0 := by omega
  have f3 : ((B : ℤ) - 1).toNat ≠ 0 := by omega
  rw [impulseBuf_ne _ f1, impulseBuf_ne _ f2, impulseBuf_ne _ f3,
    impulseBuf_zero]

/-- Fractional delay `D ∈ (M, M+1)`, write cursor `M`: the impulse sits
at the `y2` tap with fraction `M + 1 - D`. -/
lemma rawImpulse_at_m (B M : ℕ) (D : ℚ) (hB : 9 ≤ B) (hM4 : 4 ≤ M)
    (hMB : M + 4 ≤ B) (hD1 : (M : ℚ) < D) (hD2 : D < (M : ℚ) + 1) :
    rawReadImpulse B D M = CR 0 0 1 0 ((M : ℚ) + 1 - D) := by
  have hBge : (9 : ℚ) ≤ B := by exact_mod_cast hB
  have hwrap : wrapPos B ((M : ℚ) - D) = (M : ℚ) - D + B :=
    wrapPos_neg B _ (by omega) (by linarith) (by linarith)
  have hfl : ⌊wrapPos B ((M : ℚ) - D)⌋ = (B : ℤ) - 1 := by
    rw [hwrap, Int.floor_eq_iff]
    constructor
    · push_cast
      linarith
    · push_cast
      linarith
  have ht : wrapPos B ((M : ℚ) - D) - (((B : ℤ) - 1 : ℤ) : ℚ) =
      (M : ℚ) + 1 - D := by
    rw [hwrap]
    push_cast
    ring
  unfold rawReadImpulse
  rw [readCubic_eval_t B impulseBuf M D ((B : ℤ) - 1) ((M : ℚ) + 1 - D) hfl
    (by omega) (by omega) ht]
  have e1 : ((B : ℤ) - 1 - 1 + (B : ℤ)) % (B : ℤ) = (B : ℤ) - 2 := by
    rw [show (B : ℤ) - 1 - 1 + (B : ℤ) = ((B : ℤ) - 2) + (B : ℤ) * 1 from by
      ring, Int.add_mul_emod_self_left,
      Int.emod_eq_of_lt (by omega) (by omega)]
  have e2 : ((B : ℤ) - 1 + 1) % (B : ℤ) = 0 := by
    rw [show (B : ℤ) - 1 + 1 = (B : ℤ) from by ring, Int.emod_self]
  have e3 : ((B : ℤ) - 1 + 2) % (B : ℤ) = 1 := by
    rw [show (B : ℤ) - 1 + 2 = 1 + (B : ℤ) * 1 from by ring,
      Int.add_mul_emod_self_left, Int.emod_eq_of_lt (by omega) (by omega)]
  rw [e1, e2, e3]
  have f1 : ((B : ℤ) - 2).toNat ≠ 0 := by omega
  have f2 : ((B : ℤ) - 1).toNat ≠ 0 := by omega
  have f3 : ((1 : ℤ)).toNat ≠ 0 := by omega
  rw [impulseBuf_ne _ f1, impulseBuf_ne _ f2, impulseBuf_ne _ f3,
    impulseBuf_zero]

/-- Fractional delay `D ∈ (M, M+1)`, write cursor `M + 1`: the impulse
sits at the `y1` tap with fraction `M + 1 - D`. -/
lemma rawImpulse_at_mp1 (B M : ℕ) (D : ℚ) (hB : 9 ≤ B) (hM4 : 4 ≤ M)
    (hMB : M + 4 ≤ B) (hD1 : (M : ℚ) < D) (hD2 : D < (M : ℚ) + 1) :
    rawReadImpulse B D (M + 1) = CR 0 1 0 0 ((M : ℚ) + 1 - D) := by
  have hBge : (9 : ℚ) ≤ B := by exact_mod_cast hB
  have hcast : ((M + 1 : ℕ) : ℚ) = (M : ℚ) + 1 := by push_cast; ring
  have hwrap : wrapPos B (((M + 1 : ℕ) : ℚ) - D) = ((M + 1 : ℕ) : ℚ) - D := by
    apply wrapPos_id
    rw [hcast]
    linarith
  have hfl : ⌊wrapPos B (((M + 1 : ℕ) : ℚ) - D)⌋ = 0 := by
    rw [hwrap, Int.floor_eq_iff]
    rw [hcast]
    constructor
    · push_cast
      linarith
    · push_cast
      linarith
  have ht : wrapPos B (((M + 1 : ℕ) : ℚ) - D) - ((0 : ℤ) : ℚ) =
      (M : ℚ) + 1 - D := by
    rw [hwrap, hcast]
    push_cast
    ring
  unfold rawReadImpulse
  rw [readCubic_eval_t B impulseBuf (M + 1) D 0 ((M : ℚ) + 1 - D) hfl
    le_rfl (by omega) ht]
  have e1 : ((0 : ℤ) - 1 + (B : ℤ)) % (B : ℤ) = (B : ℤ) - 1 := by
    rw [show (0 : ℤ) - 1 + (B : ℤ) = (B : ℤ) - 1 from by ring,
      Int.emod_eq_of_lt (by omega) (by omega)]
  have e2 : ((0 : ℤ) + 1) % (B : ℤ) = 1 := by
    rw [show (0 : ℤ) + 1 = (1 : ℤ) from by ring,
      Int.emod_eq_of_lt (by omega) (by omega)]
  have e3 : ((0 : ℤ) + 2) % (B : ℤ) = 2 := by
    rw [show (0 : ℤ) + 2 = (2 : ℤ) from by ring,
      Int.emod_eq_of_lt (by omega) (by omega)]
  rw [e1, e2, e3]
  have f1 : ((B : ℤ) - 1).toNat ≠ 0 := by omega
  have f2 : ((1 : ℤ)).toNat ≠ 0 := by omega
  have f3 : ((2 : ℤ)).toNat ≠ 0 := by omega
  rw [impulseBuf_ne _ f1, impulseBuf_ne _ f2, impulseBuf_ne _ f3,
    impulseBuf_zero]

/-- Fractional delay `D ∈ (M, M+1)`, write cursor `M + 2`: the impulse
sits at the `y0` tap with fraction `M + 1 - D`. -/
lemma rawImpulse_at_mp2 (B M : ℕ) (D : ℚ) (hB : 9 ≤ B) (hM4 : 4 ≤ M)
    (hMB : M + 4 ≤ B) (hD1 : (M : ℚ) < D) (hD2 : D < (M : ℚ) + 1) :
    rawReadImpulse B D (M + 2) = CR 1 0 0 0 ((M : ℚ) + 1 - D) := by
  have hBge : (9 : ℚ) ≤ B := by exact_mod_cast hB
  have hcast : ((M + 2 : ℕ) : ℚ) = (M : ℚ) + 2 := by push_cast; ring
  have hwrap : wrapPos B (((M + 2 : ℕ) : ℚ) - D) = ((M + 2 : ℕ) : ℚ) - D := by
    apply wrapPos_id
    rw [hcast]
    linarith
  have hfl : ⌊wrapPos B (((M + 2 : ℕ) : ℚ) - D)⌋ = 1 := by
    rw [hwrap, Int.floor_eq_iff]
    rw [hcast]
    constructor
    · push_cast
      linarith
    · push_cast
      linarith
  have ht : wrapPos B (((M + 2 : ℕ) : ℚ) - D) - ((1 : ℤ) : ℚ) =
      (M : ℚ) + 1 - D := by
    rw [hwrap, hcast]
    push_cast
    ring
  unfold rawReadImpulse
  rw [readCubic_eval_t B impulseBuf (M + 2) D 1 ((M : ℚ) + 1 - D) hfl
    (by omega) (by omega) ht]
  have e1 : ((1 : ℤ) - 1 + (B : ℤ)) % (B : ℤ) = 0 := by
    rw [show (1 : ℤ) - 1 + (B : ℤ) = (B : ℤ) from by ring, Int.emod_self]
  have e2 : ((1 : ℤ) + 1) % (B : ℤ) = 2 := by
    rw [show (1 : ℤ) + 1 = (2 : ℤ) from by ring,
      Int.emod_eq_of_lt (by omega) (by omega)]
  have e3 : ((1 : ℤ) + 2) % (B : ℤ) = 3 := by
    rw [show (1 : ℤ) + 2 = (3 : ℤ) from by ring,
      Int.emod_eq_of_lt (by omega) (by omega)]
  rw [e1, e2, e3]
  have f1 : ((1 : ℤ)).toNat ≠ 0 := by omega
  have f2 : ((2 : ℤ)).toNat ≠ 0 := by omega
  have f3 : ((3 : ℤ)).toNat ≠ 0 := by omega
  rw [impulseBuf_ne _ f1, impulseBuf_ne _ f2, impulseBuf_ne _ f3,
    impulseBuf_zero]

/-- Write cursors at least `M + 3`: the read window has moved past the
impulse, the read is zero (holds for `D ∈ [M, M+1)`). -/
lemma rawImpulse_far (B M n : ℕ) (D : ℚ) (hB : 9 ≤ B) (hM4 : 4 ≤ M)
    (hMB : M + 4 ≤ B) (hD1 : (M : ℚ) ≤ D) (hD2 : D < (M : ℚ) + 1)
    (hn : M + 3 ≤ n) (hnB : n < B) :
    rawReadImpulse B D n = 0 := by
  have hnq : ((n : ℕ) : ℚ) ≥ (M : ℚ) + 3 := by exact_mod_cast hn
  have hnBq : ((n : ℕ) : ℚ) ≤ (B : ℚ) - 1 := by
    have : ((n : ℕ) : ℚ) + 1 ≤ (B : ℚ) := by exact_mod_cast hnB
    linarith
  have hM4q : (4 : ℚ) ≤ (M : ℚ) := by exact_mod_cast hM4
  have hMq : (M : ℚ) + 4 ≤ (B : ℚ) := by exact_mod_cast hMB
  have hwrap : wrapPos B ((n : ℚ) - D) = (n : ℚ) - D :=
    wrapPos_id B _ (by linarith)
  have hk2 : 2 ≤ ⌊(n : ℚ) - D⌋ := by
    rw [Int.le_floor]
    push_cast
    linarith
  have hk5 : ⌊(n : ℚ) - D⌋ ≤ (B : ℤ) - 5 := by
    have h1 : ⌊(n : ℚ) - D⌋ < (B : ℤ) - 4 := by
      rw [Int.floor_lt]
      push_cast
      linarith
    omega
  have hfl : ⌊wrapPos B ((n : ℚ) - D)⌋ = ⌊(n : ℚ) - D⌋ := by rw [hwrap]
  unfold rawReadImpulse
  rw [readCubic_eval B impulseBuf n D ⌊(n : ℚ) - D⌋ hfl (by omega) (by omega)]
  have e1 : (⌊(n : ℚ) - D⌋ - 1 + (B : ℤ)) % (B : ℤ) = ⌊(n : ℚ) - D⌋ - 1 := by
    rw [show ⌊(n : ℚ) - D⌋ - 1 + (B : ℤ) =
        (⌊(n : ℚ) - D⌋ - 1) + (B : ℤ) * 1 from by ring,
      Int.add_mul_emod_self_left, Int.emod_eq_of_lt (by omega) (by omega)]
  have e2 : (⌊(n : ℚ) - D⌋ + 1) % (B : ℤ) = ⌊(n : ℚ) - D⌋ + 1 :=
    Int.emod_eq_of_lt (by omega) (by omega)
  have e3 : (⌊(n : ℚ) - D⌋ + 2) % (B : ℤ) = ⌊(n : ℚ) - D⌋ + 2 :=
    Int.emod_eq_of_lt (by omega) (by omega)
  rw [e1, e2, e3]
  have f1 : (⌊(n : ℚ) - D⌋ - 1).toNat ≠ 0 := by omega
  have f2 : (⌊(n : ℚ) - D⌋).toNat ≠ 0 := by omega
  have f3 : (⌊(n : ℚ) - D⌋ + 1).toNat ≠ 0 := by omega
  have f4 : (⌊(n : ℚ) - D⌋ + 2).toNat ≠ 0 := by omega
  rw [impulseBuf_ne _ f1, impulseBuf_ne _ f2, impulseBuf_ne _ f3,
    impulseBuf_ne _ f4, CR_0000]

/-- Write cursors at most `M - 2` (fractional delay): the wrapped read
window has not yet reached the impulse, the read is zero. -/
lemma rawImpulse_pre (B M n : ℕ) (D : ℚ) (hB : 9 ≤ B) (hM4 : 4 ≤ M)
    (hMB : M + 4 ≤ B) (hD1 : (M : ℚ) < D) (hD2 : D < (M : ℚ) + 1)
    (hn : n + 2 ≤ M) :
    rawReadImpulse B D n = 0 := by
  have hnq : ((n : ℕ) : ℚ) ≤ (M : ℚ) - 2 := by
    have : ((n : ℕ) : ℚ) + 2 ≤ (M : ℚ) := by exact_mod_cast hn
    linarith
  have hn0 : (0 : ℚ) ≤ (n : ℚ) := by positivity
  have hM4q : (4 : ℚ) ≤ (M : ℚ) := by exact_mod_cast hM4
  have hMq : (M : ℚ) + 4 ≤ (B : ℚ) := by exact_mod_cast hMB
  have hwrap : wrapPos B ((n : ℚ) - D) = (n : ℚ) - D + B :=
    wrapPos_neg B _ (by omega) (by linarith) (by linarith)
  have hk3 : 3 ≤ ⌊(n : ℚ) - D + B⌋ := by
    rw [Int.le_floor]
    push_cast
    linarith
  have hkB : ⌊(n : ℚ) - D + B⌋ ≤ (B : ℤ) - 3 := by
    have h1 : ⌊(n : ℚ) - D + B⌋ < (B : ℤ) - 2 := by
      rw [Int.floor_lt]
      push_cast
      linarith
    omega
  have hfl : ⌊wrapPos B ((n : ℚ) - D)⌋ = ⌊(n : ℚ) - D + B⌋ := by rw [hwrap]
  unfold rawReadImpulse
  rw [readCubic_eval B impulseBuf n D ⌊(n : ℚ) - D + B⌋ hfl (by omega)
    (by omega)]
  have e1 : (⌊(n : ℚ) - D + B⌋ - 1 + (B : ℤ)) % (B : ℤ) =
      ⌊(n : ℚ) - D + B⌋ - 1 := by
    rw [show ⌊(n : ℚ) - D + B⌋ - 1 + (B : ℤ) =
        (⌊(n : ℚ) - D + B⌋ - 1) + (B : ℤ) * 1 from by ring,
      Int.add_mul_emod_self_left, Int.emod_eq_of_lt (by omega) (by omega)]
  have e2 : (⌊(n : ℚ) - D + B⌋ + 1) % (B : ℤ) = ⌊(n : ℚ) - D + B⌋ + 1 :=
    Int.emod_eq_of_lt (by omega) (by omega)
  have e3 : (⌊(n : ℚ) - D + B⌋ + 2) % (B : ℤ) = ⌊(n : ℚ) - D + B⌋ + 2 :=
    Int.emod_eq_of_lt (by omega) (by omega)
  rw [e1, e2, e3]
  have f1 : (⌊(n : ℚ) - D + B⌋ - 1).toNat ≠ 0 := by omega
  have f2 : (⌊(n : ℚ) - D + B⌋).toNat ≠ 0 := by omega
  have f3 : (⌊(n : ℚ) - D + B⌋ + 1).toNat ≠ 0 := by omega
  have f4 : (⌊(n : ℚ) - D + B⌋ + 2).toNat ≠ 0 := by omega
  rw [impulseBuf_ne _ f1, impulseBuf_ne _ f2, impulseBuf_ne _ f3,
    impulseBuf_ne _ f4, CR_0000]

/-- For fractions `u ∈ [1/2, 1]` the `y2` Catmull-Rom weight dominates
the other three single-tap weights in magnitude. -/
lemma crPeakHi (u : ℚ) (h1 : 1/2 ≤ u) (h2 : u ≤ 1) :
    0 ≤ CR 0 0 1 0 u ∧
    |CR 0 0 0 1 u| ≤ CR 0 0 1 0 u ∧
    |CR 0 1 0 0 u| ≤ CR 0 0 1 0 u ∧
    |CR 1 0 0 0 u| ≤ CR 0 0 1 0 u := by
  rw [CR_0010, CR_0001, CR_0100, CR_1000]
  have h0 : (0 : ℚ) ≤ u := by linarith
  have p1 : (0 : ℚ) ≤ u * (1 - u) := mul_nonneg h0 (by linarith)
  have p2 : (0 : ℚ) ≤ u * ((1 - u) * (1.5 * u - 0.5)) :=
    mul_nonneg h0 (mul_nonneg (by linarith) (by linarith))
  have p3 : (0 : ℚ) ≤ u * ((1 - u) * (2 * u - 0.5)) :=
    mul_nonneg h0 (mul_nonneg (by linarith) (by linarith))
  have p4 : (0 : ℚ) ≤ u * (u * (1.5 - u)) :=
    mul_nonneg h0 (mul_nonneg h0 (by linarith))
  have p5 : (0 : ℚ) ≤ (u - 1/2) * (u * (1 - u)) :=
    mul_nonneg (by linarith) p1
  have p6 : (0 : ℚ) ≤ u * (u * (3 - 2 * u)) :=
    mul_nonneg h0 (mul_nonneg h0 (by linarith))
  refine ⟨by nlinarith [p2], ?_, ?_, ?_⟩
  · rw [abs_le]
    constructor
    · nlinarith [p4]
    · nlinarith [p3]
  · rw [abs_le]
    constructor
    · nlinarith [p1]
    · nlinarith [p5]
  · rw [abs_le]
    constructor
    · nlinarith [p6]
    · nlinarith [p1, p2]

/-- For fractions `u ∈ [0, 1/2]` the `y1` Catmull-Rom weight dominates
the other three single-tap weights in magnitude. -/
lemma crPeakLo (u : ℚ) (h1 : 0 ≤ u) (h2 : u ≤ 1/2) :
    0 ≤ CR 0 1 0 0 u ∧
    |CR 0 0 0 1 u| ≤ CR 0 1 0 0 u ∧
    |CR 0 0 1 0 u| ≤ CR 0 1 0 0 u ∧
    |CR 1 0 0 0 u| ≤ CR 0 1 0 0 u := by
  rw [CR_0100, CR_0001, CR_0010, CR_1000]
  have hu1 : u ≤ 1 := by linarith
  have q1 : (0 : ℚ) ≤ u * (1/2 - u) := mul_nonneg h1 (by linarith)
  have q2 : (0 : ℚ) ≤ u * (u * u) := mul_nonneg h1 (mul_nonneg h1 h1)
  have q3 : (0 : ℚ) ≤ (1 - u) ^ 2 * (2 * u + 1) :=
    mul_nonneg (sq_nonneg _) (by linarith)
  have q4 : (0 : ℚ) ≤ u * u * (1 - u) :=
    mul_nonneg (mul_nonneg h1 h1) (by linarith)
  have q5 : (0 : ℚ) ≤ u * (u * (2 - 1.5 * u)) :=
    mul_nonneg h1 (mul_nonneg h1 (by linarith))
  have q6 : (0 : ℚ) ≤ (1/2 - u) * (u * (1 - u)) :=
    mul_nonneg (by linarith) (mul_nonneg h1 (by linarith))
  have q7 : (0 : ℚ) ≤ (1 - u) * (u * (0.5 - u)) :=
    mul_nonneg (by linarith) (mul_nonneg h1 (by linarith))
  have hw1 : (0 : ℚ) ≤ 1.5 * u ^ 3 - 2.5 * u ^ 2 + 1 := by nlinarith [q1, q2]
  refine ⟨hw1, ?_, ?_, ?_⟩
  · rw [abs_le]
    constructor
    · nlinarith [q3]
    · nlinarith [q4, hw1]
  · rw [abs_le]
    constructor
    · nlinarith [q5, hw1]
    · nlinarith [q6]
  · rw [abs_le]
    constructor
    · nlinarith [q7]
    · nlinarith [q4, hw1]

/-- The peak of the impulse read sequence: for a fixed delay
`D ∈ [M, M+1) ⊆ [4, B-4]`, over all write cursors `n < B` the magnitude
of the raw impulse read is maximised at `n = round D`. -/
lemma rawImpulse_peak (B M : ℕ) (D : ℚ) (hB : 9 ≤ B) (hM4 : 4 ≤ M)
    (hMB : M + 4 ≤ B) (hD1 : (M : ℚ) ≤ D) (hD2 : D < (M : ℚ) + 1) :
    ∀ n : ℕ, n < B →
      |rawReadImpulse B D n| ≤ |rawReadImpulse B D ((round D).toNat)| := by
  by_cases hDM : D = (M : ℚ)
  · subst hDM
    have hround : (round ((M : ℕ) : ℚ)).toNat = M := by
      rw [round_natCast, Int.toNat_natCast]
    intro n hn
    rw [hround, rawImpulse_int_self B M hB hMB]
    by_cases hnM : n = M
    · rw [hnM, rawImpulse_int_self B M hB hMB]
    · rw [rawImpulse_int_other B M n hB hM4 hMB hn hnM]
      simp
  · have hD1' : (M : ℚ) < D := lt_of_le_of_ne hD1 (Ne.symm hDM)
    by_cases hr : D < (M : ℚ) + 1/2
    · have hfl : ⌊D + 1/2⌋ = (M : ℤ) := by
        rw [Int.floor_eq_iff]
        constructor
        · push_cast
          linarith
        · push_cast
          linarith
      have hround : (round D).toNat = M := by
        rw [round_eq, hfl, Int.toNat_natCast]
      intro n hn
      rw [hround, rawImpulse_at_m B M D hB hM4 hMB hD1' hD2]
      obtain ⟨hw2, hy3, hy1, hy0⟩ :=
        crPeakHi ((M : ℚ) + 1 - D) (by linarith) (by linarith)
      rw [abs_of_nonneg hw2]
      by_cases e1 : n + 1 = M
      · rw [rawImpulse_at_m1 B M n D hB hM4 hMB hD1' hD2 e1]
        exact hy3
      by_cases e2 : n = M
      · rw [e2, rawImpulse_at_m B M D hB hM4 hMB hD1' hD2,
          abs_of_nonneg hw2]
      by_cases e3 : n = M + 1
      · rw [e3, rawImpulse_at_mp1 B M D hB hM4 hMB hD1' hD2]
        exact hy1
      by_cases e4 : n = M + 2
      · rw [e4, rawImpulse_at_mp2 B M D hB hM4 hMB hD1' hD2]
        exact hy0
      rcases Nat.lt_or_ge n M with h5 | h5
      · rw [rawImpulse_pre B M n D hB hM4 hMB hD1' hD2 (by omega)]
        simpa using hw2
      · rw [rawImpulse_far B M n D hB hM4 hMB hD1 hD2 (by omega) hn]
        simpa using hw2
    · push_neg at hr
      have hfl : ⌊D + 1/2⌋ = (M : ℤ) + 1 := by
        rw [Int.floor_eq_iff]
        constructor
        · push_cast
          linarith
        · push_cast
          linarith
      have hround : (round D).toNat = M + 1 := by
        rw [round_eq, hfl]
        omega
      intro n hn
      rw [hround, rawImpulse_at_mp1 B M D hB hM4 hMB hD1' hD2]
      obtain ⟨hw1, hy3, hy2, hy0⟩ :=
        crPeakLo ((M : ℚ) + 1 - D) (by linarith) (by linarith)
      rw [abs_of_nonneg hw1]
      by_cases e1 : n + 1 = M
      · rw [rawImpulse_at_m1 B M n D hB hM4 hMB hD1' hD2 e1]
        exact hy3
      by_cases e2 : n = M
      · rw [e2, rawImpulse_at_m B M D hB hM4 hMB hD1' hD2]
        exact hy2
      by_cases e3 : n = M + 1
      · rw [e3, rawImpulse_at_mp1 B M D hB hM4 hMB hD1' hD2,
          abs_of_nonneg hw1]
      by_cases e4 : n = M + 2
      · rw [e4, rawImpulse_at_mp2 B M D hB hM4 hMB hD1' hD2]
        exact hy0
      rcases Nat.lt_or_ge n M with h5 | h5
      · rw [rawImpulse_pre B M n D hB hM4 hMB hD1' hD2 (by omega)]
        simpa using hw1
      · rw [rawImpulse_far B M n D hB hM4 hMB hD1 hD2 (by omega) hn]
        simpa using hw1

/-- The integer clamp lands in the requested interval. -/
lemma jlimitInt_bounds (lo hi v : ℤ) (h : lo ≤ hi) :
    lo ≤ jlimitInt lo hi v ∧ jlimitInt lo hi v ≤ hi := by
  unfold jlimitInt
  split_ifs <;> omega

/-- The integer clamp is the identity on in-range values. -/
lemma jlimitInt_id (lo hi v : ℤ) (h1 : lo ≤ v) (h2 : v ≤ hi) :
    jlimitInt lo hi v = v := by
  unfold jlimitInt
  split_ifs <;> omega

/-- C1: the mode table has exactly 12 entries whose rows match the
documented table (index 6 enables all three heads without reverb, index
11 enables no heads with reverb); lookup clamps any integer index into
[0, 11] and agrees with direct indexing on in-range indices.  The table
is a constant definition, so it is never mutated. -/
theorem modeTable_correct :
    MODE_TABLE.length = 12 ∧
    modeLookup 0  = ⟨true,  false, false, false⟩ ∧
    modeLookup 1  = ⟨false, true,  false, false⟩ ∧
    modeLookup 2  = ⟨false, false, true,  false⟩ ∧
    modeLookup 3  = ⟨true,  true,  false, false⟩ ∧
    modeLookup 4  = ⟨true,  false, true,  false⟩ ∧
    modeLookup 5  = ⟨false, true,  true,  false⟩ ∧
    modeLookup 6  = ⟨true,  true,  true,  false⟩ ∧
    modeLookup 7  = ⟨true,  false, false, true⟩ ∧
    modeLookup 8  = ⟨false, true,  false, true⟩ ∧
    modeLookup 9  = ⟨false, false, true,  true⟩ ∧
    modeLookup 10 = ⟨true,  true,  true,  true⟩ ∧
    modeLookup 11 = ⟨false, false, false, true⟩ ∧
    (∀ i : ℤ, 0 ≤ jlimitInt 0 11 i ∧ jlimitInt 0 11 i ≤ 11) ∧
    (∀ i : ℤ, 0 ≤ i → i ≤ 11 → jlimitInt 0 11 i = i) := by
  refine ⟨rfl, rfl, rfl, rfl, rfl, rfl, rfl, rfl, rfl, rfl, rfl, rfl, rfl,
    fun i => jlimitInt_bounds 0 11 i (by omega),
    fun i h0 h11 => jlimitInt_id 0 11 i h0 h11⟩

/-- Witness for C1: the clamp is the identity on the in-range index 3. -/
theorem modeTable_correct_witness :
    (0 : ℤ) ≤ 3 ∧ (3 : ℤ) ≤ 11 ∧ jlimitInt 0 11 3 = 3 :=
  ⟨by decide, by decide, modeTable_correct.2.2.2.2.2.2.2.2.2.2.2.2.2.2 3
    (by decide) (by decide)⟩

/-- C4: in the per-sample head mix, when the current mode enables zero
heads the guarded division is skipped and the echo output is exactly
zero; the division is performed only when the active-head count is
positive (and mode index 11, the only zero-head row, indeed has count
zero). -/
theorem head_mix_zero_safe :
    (∀ (mc : ModeConfig) (h0 h1 h2 : ℚ),
      (numHeads mc = 0 → echoMix mc h0 h1 h2 = 0) ∧
      (0 < numHeads mc →
        echoMix mc h0 h1 h2 = sumActiveHeads mc h0 h1 h2 / (numHeads mc : ℚ))) ∧
    numHeads (modeLookup 11) = 0 ∧
    (∀ i : ℤ, numHeads (modeLookup i) = 0 → modeLookup i = modeLookup 11) := by
  refine ⟨?_, by decide, ?_⟩
  · intro mc h0 h1 h2
    constructor
    · intro hz
      rcases mc with ⟨b0, b1, b2, r⟩
      cases b0 <;> cases b1 <;> cases b2 <;>
        simp_all [numHeads, echoMix, sumActiveHeads]
    · intro hp
      simp [echoMix, hp]
  · intro i hz
    obtain ⟨hb1, hb2⟩ := jlimitInt_bounds 0 11 i (by omega)
    unfold modeLookup at hz ⊢
    generalize hn : (jlimitInt 0 11 i).toNat = n at hz ⊢
    have hn11 : n ≤ 11 := by omega
    interval_cases n <;> revert hz <;> decide

/-- Witness for C4: mode index 11 enables no heads and forces zero echo
output on concrete head values. -/
theorem head_mix_zero_safe_witness :
    numHeads (modeLookup 11) = 0 ∧ echoMix (modeLookup 11) 1 2 3 = 0 :=
  ⟨by decide,
    (head_mix_zero_safe.1 (modeLookup 11) 1 2 3).1 (by decide)⟩

/-- Real tanh stays strictly inside (-1, 1). -/
lemma abs_tanh_lt_one (y : ℝ) : |Real.tanh y| < 1 := by
  rw [Real.tanh_eq_sinh_div_cosh, abs_div,
    abs_of_pos (Real.cosh_pos y), div_lt_one (Real.cosh_pos y), abs_lt]
  constructor
  · have h := Real.sinh_lt_cosh (-y)
    rw [Real.sinh_neg, Real.cosh_neg] at h
    linarith
  · exact Real.sinh_lt_cosh y

/-- Derivative of tanh at the origin is 1. -/
lemma hasDerivAt_tanh_zero : HasDerivAt Real.tanh 1 0 := by
  have hs := Real.hasDerivAt_sinh 0
  have hc := Real.hasDerivAt_cosh 0
  have hd := hs.div hc (by simp)
  have he : (fun y => Real.sinh y / Real.cosh y) = Real.tanh :=
    funext fun y => (Real.tanh_eq_sinh_div_cosh y).symm
  rw [he] at hd
  simpa using hd

/-- C2: the soft limiter output is strictly inside (-1/0.9, 1/0.9) for
every real input, it maps 0 to 0, and its derivative at 0 is exactly 1,
so `softClip x = x + o(x)` near the origin (transparency at low level). -/
theorem softClip_bounded_and_transparent :
    (∀ x : ℝ, |softClip x| < 1 / 0.9) ∧ softClip 0 = 0 ∧
    HasDerivAt softClip 1 0 := by
  refine ⟨?_, ?_, ?_⟩
  · intro x
    unfold softClip
    rw [abs_div]
    have h09 : |(0.9 : ℝ)| = 0.9 := by norm_num [abs_of_pos]
    rw [h09]
    exact (div_lt_div_iff_of_pos_right (by norm_num)).mpr
      (abs_tanh_lt_one (x * 0.9))
  · simp [softClip]
  · show HasDerivAt (fun x : ℝ => Real.tanh (x * 0.9) / 0.9) 1 0
    have hlin : HasDerivAt (fun x : ℝ => x * 0.9) 0.9 0 := by
      simpa using (hasDerivAt_id (0 : ℝ)).mul_const (0.9 : ℝ)
    have h0 : (0 : ℝ) = (0 : ℝ) * 0.9 := by norm_num
    have hcomp' := HasDerivAt.comp 0 (h0 ▸ hasDerivAt_tanh_zero) hlin
    have hcomp : HasDerivAt (fun x : ℝ => Real.tanh (x * 0.9)) (1 * 0.9) 0 := by
      simpa [Function.comp] using hcomp'
    have hdiv := hcomp.div_const (0.9 : ℝ)
    convert hdiv using 1
    norm_num

/-- C5: below the 0.001 threshold `TapeDelay::saturate` returns the
input exactly; at or above it, the result is precisely the asymmetric
formula the spec describes (drive `1 + 4.5·amount`, positive branch
`xd/(1+1.12·xd)`, negative branch `xd/(1−0.88·xd)`, normalised by the
drive), and small signals pass at near-unity gain: the deviation from
identity is bounded by `1.12·drive·x²`. -/
theorem saturate_matches_spec (x a : ℚ) :
    (a < 0.001 → saturate x a = x) ∧
    (0.001 ≤ a → saturate x a = saturateSpecFormula x a) ∧
    (0.001 ≤ a → |saturate x a - x| ≤ 1.12 * (1 + 4.5 * a) * x ^ 2) := by
  refine ⟨fun h => by simp [saturate, h], fun h => ?_, fun h => ?_⟩
  · have h' : ¬ a < 0.001 := not_lt.mpr h
    simp only [saturate, saturateSpecFormula, if_neg h']
    have e : 1 + a * 4.5 = 1 + 4.5 * a := by ring
    rw [e]
  · have h' : ¬ a < 0.001 := not_lt.mpr h
    have hd : (0 : ℚ) < 1 + a * 4.5 := by nlinarith
    have hd0 : (1 + a * 4.5) ≠ 0 := ne_of_gt hd
    simp only [saturate, if_neg h']
    by_cases hx : 0 ≤ x * (1 + a * 4.5)
    · rw [if_pos hx]
      have hden : (0 : ℚ) < 1 + 1.12 * (x * (1 + a * 4.5)) := by nlinarith
      have key : x * (1 + a * 4.5) / (1 + 1.12 * (x * (1 + a * 4.5))) /
          (1 + a * 4.5) - x =
          -(1.12 * (1 + a * 4.5) * x ^ 2 /
            (1 + 1.12 * (x * (1 + a * 4.5)))) := by
        field_simp
        ring
      rw [key, abs_neg,
        abs_of_nonneg (div_nonneg (by nlinarith [sq_nonneg x]) hden.le)]
      calc 1.12 * (1 + a * 4.5) * x ^ 2 /
            (1 + 1.12 * (x * (1 + a * 4.5)))
          ≤ 1.12 * (1 + a * 4.5) * x ^ 2 :=
            div_le_self (by nlinarith [sq_nonneg x]) (by nlinarith)
        _ = 1.12 * (1 + 4.5 * a) * x ^ 2 := by ring
    · rw [if_neg hx]
      push_neg at hx
      have hden : (0 : ℚ) < 1 - 0.88 * (x * (1 + a * 4.5)) := by nlinarith
      have key : x * (1 + a * 4.5) / (1 - 0.88 * (x * (1 + a * 4.5))) /
          (1 + a * 4.5) - x =
          0.88 * (1 + a * 4.5) * x ^ 2 /
            (1 - 0.88 * (x * (1 + a * 4.5))) := by
        field_simp
        ring
      rw [key,
        abs_of_nonneg (div_nonneg (by nlinarith [sq_nonneg x]) hden.le)]
      calc 0.88 * (1 + a * 4.5) * x ^ 2 /
            (1 - 0.88 * (x * (1 + a * 4.5)))
          ≤ 0.88 * (1 + a * 4.5) * x ^ 2 :=
            div_le_self (by nlinarith [sq_nonneg x]) (by nlinarith)
        _ ≤ 1.12 * (1 + 4.5 * a) * x ^ 2 := by nlinarith [sq_nonneg x]

/-- Witness for C5: at amount 0 (below threshold) the input 1 passes
unchanged; at amount 1 the deviation bound holds at input 1/10. -/
theorem saturate_matches_spec_witness :
    ((0 : ℚ) < 0.001 ∧ saturate 1 0 = 1) ∧
    ((0.001 : ℚ) ≤ 1 ∧
      |saturate (1/10) 1 - 1/10| ≤ 1.12 * (1 + 4.5 * 1) * (1/10) ^ 2) :=
  ⟨⟨by norm_num, (saturate_matches_spec 1 0).1 (by norm_num)⟩,
    ⟨by norm_num, (saturate_matches_spec (1/10) 1).2.2 (by norm_num)⟩⟩

/-- The float clamp lands in the requested interval. -/
lemma jlimit_bounds (lo hi v : ℚ) (h : lo ≤ hi) :
    lo ≤ jlimit lo hi v ∧ jlimit lo hi v ≤ hi := by
  unfold jlimit
  split_ifs <;> constructor <;> linarith

/-- All four indices produced by `readCubic` lie in `[0, B)`. -/
lemma readCubicIndices_range (B w : ℕ) (hB : 0 < B) (d : ℚ) :
    ∀ i ∈ readCubicIndices B w d, 0 ≤ i ∧ i < (B : ℤ) := by
  intro i hi
  have hBz : ((B : ℤ)) ≠ 0 := by
    have : (0 : ℤ) < B := by exact_mod_cast hB
    omega
  have hBpos : (0 : ℤ) < B := by exact_mod_cast hB
  simp only [readCubicIndices, List.mem_cons, List.mem_singleton,
    List.not_mem_nil, or_false] at hi
  rcases hi with h | h | h | h <;> subst h <;>
    exact ⟨Int.emod_nonneg _ hBz, Int.emod_lt_of_pos _ hBpos⟩

/-- C3: every per-head delay and every print-through delay computed in
`TapeDelay::process` is clamped into `[1, bufferSize-4]` before it is
used, and for any clamped delay every one of the four Catmull-Rom read
indices of `readCubic` lies inside `[0, bufferSize)` — no out-of-range
buffer access is possible for any input delay or modulation value. -/
theorem tape_read_indices_safe (B w : ℕ) (d : ℚ) (hB : 5 ≤ B)
    (hw : w < B) :
    (1 ≤ jlimit 1 ((B : ℚ) - 4) d ∧ jlimit 1 ((B : ℚ) - 4) d ≤ (B : ℚ) - 4) ∧
    (1 ≤ jlimit 1 ((B : ℚ) - 4) (jlimit 1 ((B : ℚ) - 4) d * 0.92) ∧
      jlimit 1 ((B : ℚ) - 4) (jlimit 1 ((B : ℚ) - 4) d * 0.92) ≤ (B : ℚ) - 4) ∧
    (∀ i ∈ readCubicIndices B w (jlimit 1 ((B : ℚ) - 4) d),
      0 ≤ i ∧ i < (B : ℤ)) ∧
    (∀ i ∈ readCubicIndices B w
        (jlimit 1 ((B : ℚ) - 4) (jlimit 1 ((B : ℚ) - 4) d * 0.92)),
      0 ≤ i ∧ i < (B : ℤ)) := by
  have hB4 : (1 : ℚ) ≤ (B : ℚ) - 4 := by
    have : (5 : ℚ) ≤ B := by exact_mod_cast hB
    linarith
  have hBpos : 0 < B := by omega
  exact ⟨jlimit_bounds 1 _ d hB4, jlimit_bounds 1 _ _ hB4,
    readCubicIndices_range B w hBpos _, readCubicIndices_range B w hBpos _⟩

/-- Witness for C3: at buffer size 10, write position 3 and raw delay
1000, the clamped delay is in range and a concrete produced index (6) is
inside `[0, 10)`. -/
theorem tape_read_indices_safe_witness :
    ((5 ≤ 10 ∧ 3 < 10) ∧
      (1 ≤ jlimit 1 ((10 : ℚ) - 4) 1000 ∧
        jlimit 1 ((10 : ℚ) - 4) 1000 ≤ (10 : ℚ) - 4)) ∧
    ((6 : ℤ) ∈ readCubicIndices 10 3 (jlimit 1 ((10 : ℚ) - 4) 1000) ∧
      0 ≤ (6 : ℤ) ∧ (6 : ℤ) < (10 : ℤ)) := by
  have hlist : readCubicIndices 10 3 (jlimit 1 ((10 : ℚ) - 4) 1000) =
      [6, 7, 8, 9] := by
    have hc : ⌈(3 : ℚ) / 10⌉ = 1 := by
      rw [Int.ceil_eq_iff]
      norm_num
    norm_num [readCubicIndices, jlimit, wrapPos, hc]
  have hmem : (6 : ℤ) ∈ readCubicIndices 10 3 (jlimit 1 ((10 : ℚ) - 4) 1000) := by
    rw [hlist]
    decide
  exact ⟨⟨⟨by norm_num, by norm_num⟩,
      (tape_read_indices_safe 10 3 1000 (by norm_num) (by norm_num)).1⟩,
    ⟨hmem,
      (tape_read_indices_safe 10 3 1000 (by norm_num) (by norm_num)).2.2.1
        6 hmem⟩⟩

/-- C7 (counterexample): at 44.1 kHz the prepare-time buffer for
`maxDelayMs = 750` has 37171 samples, and for the maximal base delay of
500 ms (22050 samples) head 3's nominal delay 22050 × 2.625 = 57881.25
exceeds `bufferSize - 4`, so `TapeDelay::process` clamps it to 37167.
With zero modulation the impulse read is exactly 1 at offset 37167 and
0 at the claimed offset `round(22050 × 2.625) = 57881`: the impulse
peak is NOT at `round(baseDelaySamples × ratio)`. -/
theorem impulse_peak_clamped_counterexample :
    headDelay 37171 22050 2 0 = 37167 ∧
    round ((22050 : ℚ) * HEAD_RATIOS 2) = 57881 ∧
    rawReadImpulse 37171 (headDelay 37171 22050 2 0) 37167 = 1 ∧
    rawReadImpulse 37171 (headDelay 37171 22050 2 0) 57881 = 0 ∧
    ¬ (|rawReadImpulse 37171 (headDelay 37171 22050 2 0) 37167| ≤
        |rawReadImpulse 37171 (headDelay 37171 22050 2 0) 57881|) := by
  have hR : HEAD_RATIOS 2 = 2.625 := rfl
  have hD : headDelay 37171 22050 2 0 = 37167 := by
    unfold headDelay jlimit
    rw [hR]
    norm_num
  have hround : round ((22050 : ℚ) * HEAD_RATIOS 2) = 57881 := by
    rw [hR, round_eq, Int.floor_eq_iff]
    constructor
    · norm_num
    · norm_num
  have hpeak : rawReadImpulse 37171 (headDelay 37171 22050 2 0) 37167 = 1 := by
    rw [hD, show (37167 : ℚ) = ((37167 : ℕ) : ℚ) from by norm_num]
    exact rawImpulse_int_self 37171 37167 (by norm_num) (by norm_num)
  have hmiss : rawReadImpulse 37171 (headDelay 37171 22050 2 0) 57881 = 0 := by
    rw [hD]
    unfold rawReadImpulse
    have hwrap : wrapPos 37171 (((57881 : ℕ) : ℚ) - 37167) =
        ((57881 : ℕ) : ℚ) - 37167 := wrapPos_id _ _ (by push_cast; norm_num)
    have hfl : ⌊wrapPos 37171 (((57881 : ℕ) : ℚ) - 37167)⌋ = 20714 := by
      rw [hwrap, show ((57881 : ℕ) : ℚ) - 37167 = ((20714 : ℤ) : ℚ) from by
        push_cast
        norm_num]
      exact Int.floor_intCast _
    have ht : wrapPos 37171 (((57881 : ℕ) : ℚ) - 37167) -
        ((20714 : ℤ) : ℚ) = 0 := by
      rw [hwrap]
      push_cast
      norm_num
    rw [readCubic_eval_t 37171 impulseBuf 57881 37167 20714 0 hfl
      (by norm_num) (by norm_num) ht, CR_t_zero]
    have f2 : ((20714 : ℤ)).toNat ≠ 0 := by norm_num
    rw [impulseBuf_ne _ f2]
  refine ⟨hD, hround, hpeak, hmiss, ?_⟩
  rw [hpeak, hmiss]
  norm_num

/-- C7 (amended): for any buffer size at least 9 and any head whose
nominal delay `baseDelaySamples × ratio` (with total modulation zero)
lies inside the clamp range `[4, bufferSize-4]`, the clamp is the
identity and the unit-impulse read magnitude over all write cursors
`n < bufferSize` peaks exactly at sample offset
`round(baseDelaySamples × ratio)`. -/
theorem impulse_peak_at_round (B : ℕ) (base : ℚ) (h : Fin 3)
    (hB : 9 ≤ B) (hlo : 4 ≤ base * HEAD_RATIOS h)
    (hhi : base * HEAD_RATIOS h ≤ (B : ℚ) - 4) :
    headDelay B base h 0 = base * HEAD_RATIOS h ∧
    ∀ n : ℕ, n < B →
      |rawReadImpulse B (headDelay B base h 0) n| ≤
        |rawReadImpulse B (headDelay B base h 0)
          ((round (base * HEAD_RATIOS h)).toNat)| := by
  have hD : headDelay B base h 0 = base * HEAD_RATIOS h := by
    unfold headDelay jlimit
    rw [show base * HEAD_RATIOS h * (1 + 0) = base * HEAD_RATIOS h from by
      ring]
    rw [if_neg (not_lt.mpr (by linarith)), if_neg (not_lt.mpr hhi)]
  refine ⟨hD, ?_⟩
  rw [hD]
  have hfl0 : (0 : ℤ) ≤ ⌊base * HEAD_RATIOS h⌋ := by
    rw [Int.le_floor]
    push_cast
    linarith
  have hfl4 : (4 : ℤ) ≤ ⌊base * HEAD_RATIOS h⌋ := by
    rw [Int.le_floor]
    push_cast
    linarith
  have hflB : ⌊base * HEAD_RATIOS h⌋ ≤ (B : ℤ) - 4 := by
    have h1 : ((⌊base * HEAD_RATIOS h⌋ : ℤ) : ℚ) ≤ base * HEAD_RATIOS h :=
      Int.floor_le _
    have h2 : ((⌊base * HEAD_RATIOS h⌋ : ℤ) : ℚ) ≤ (((B : ℤ) - 4 : ℤ) : ℚ) := by
      push_cast
      linarith
    exact_mod_cast h2
  have hq1 : ((⌊base * HEAD_RATIOS h⌋.toNat : ℕ) : ℚ) ≤ base * HEAD_RATIOS h := by
    calc ((⌊base * HEAD_RATIOS h⌋.toNat : ℕ) : ℚ)
        = ((⌊base * HEAD_RATIOS h⌋ : ℤ) : ℚ) := by
          exact_mod_cast congrArg (fun z : ℤ => (z : ℚ))
            (Int.toNat_of_nonneg hfl0)
      _ ≤ base * HEAD_RATIOS h := Int.floor_le _
  have hq2 : base * HEAD_RATIOS h <
      ((⌊base * HEAD_RATIOS h⌋.toNat : ℕ) : ℚ) + 1 := by
    calc base * HEAD_RATIOS h
        < ((⌊base * HEAD_RATIOS h⌋ : ℤ) : ℚ) + 1 := Int.lt_floor_add_one _
      _ = ((⌊base * HEAD_RATIOS h⌋.toNat : ℕ) : ℚ) + 1 := by
          have := congrArg (fun z : ℤ => (z : ℚ)) (Int.toNat_of_nonneg hfl0)
          push_cast at this ⊢
          linarith [this]
  exact rawImpulse_peak B ⌊base * HEAD_RATIOS h⌋.toNat (base * HEAD_RATIOS h)
    hB (by omega) (by omega) hq1 hq2

/-- Witness for the amended C7: buffer size 20, base delay 5 samples,
head 1 (ratio 1): the clamp is the identity and the read at cursor 3 is
dominated by the read at the rounded delay. -/
theorem impulse_peak_at_round_witness :
    ((9 ≤ 20 ∧ (4 : ℚ) ≤ 5 * HEAD_RATIOS 0) ∧
      (5 : ℚ) * HEAD_RATIOS 0 ≤ (20 : ℚ) - 4) ∧
    headDelay 20 5 0 0 = 5 * HEAD_RATIOS 0 ∧
    |rawReadImpulse 20 (headDelay 20 5 0 0) 3| ≤
      |rawReadImpulse 20 (headDelay 20 5 0 0)
        ((round ((5 : ℚ) * HEAD_RATIOS 0)).toNat)| := by
  have hR : HEAD_RATIOS 0 = 1 := rfl
  have h1 : (9 : ℕ) ≤ 20 := by norm_num
  have h2 : (4 : ℚ) ≤ 5 * HEAD_RATIOS 0 := by
    rw [hR]
    norm_num
  have h3 : (5 : ℚ) * HEAD_RATIOS 0 ≤ (20 : ℚ) - 4 := by
    rw [hR]
    norm_num
  obtain ⟨ha, hb⟩ := impulse_peak_at_round 20 5 0 h1 h2 h3
  exact ⟨⟨⟨h1, h2⟩, h3⟩, ha, hb 3 (by norm_num)⟩

/-- C8 (failing input): the dropout state machine's recovery ramp, gain
range [0.25, 0.5] and duration range hold, but the reschedule is NOT
"15-35 s later": at 44.1 kHz, triggering a dropout with RNG word
1008532387 (the actual machine state at the fourth trigger reached from
the prepare-time seed `1234567891 ^ 44100`) reschedules the next event
1578812 samples ≈ 35.8 s later, exceeding the documented 35 s bound
(35 s = 1543500 samples), because `rand & 0xFFFFF` spans up to 23.8 s
while the code's own comment promises 15-35 s. -/
theorem dropout_reschedule_exceeds_35s :
    (dropoutStep 44100 ⟨1008532387, 0, 0, 1⟩).dropoutTimer = 1578812 ∧
    35 * 44100 < (dropoutStep 44100 ⟨1008532387, 0, 0, 1⟩).dropoutTimer ∧
    (0.25 ≤ (dropoutStep 44100 ⟨1008532387, 0, 0, 1⟩).dropoutGain ∧
      (dropoutStep 44100 ⟨1008532387, 0, 0, 1⟩).dropoutGain ≤ 0.5) ∧
    (1323 ≤ (dropoutStep 44100 ⟨1008532387, 0, 0, 1⟩).dropoutLen ∧
      (dropoutStep 44100 ⟨1008532387, 0, 0, 1⟩).dropoutLen ≤ 3370) := by
  refine ⟨?_, ?_, ⟨?_, ?_⟩, ?_, ?_⟩ <;> norm_num [dropoutStep, xorshift32] <;>
    simp <;> norm_num

/-- C6: with the delay line frozen, one step of `TapeDelay::process`
leaves the tape buffer exactly as it was, for EVERY input, feedback and
saturation value — two frozen steps from the same state with different
input/feedback/saturation agree completely (same new state, same head
outputs), so freezing suppresses only the record step while playback
reads continue over the previously recorded content — and the write
cursor still advances circularly. -/
theorem frozen_preserves_buffer (env : FloatEnv) (s : TapeDelayState)
    (base wowAmt in1 fb1 sat1 in2 fb2 sat2 : ℚ) :
    tapeDelayProcess env { s with frozen := true } in1 base fb1 wowAmt sat1 =
      tapeDelayProcess env { s with frozen := true } in2 base fb2 wowAmt sat2 ∧
    (tapeDelayProcess env { s with frozen := true } in1 base fb1 wowAmt
        sat1).1.buffer = s.buffer ∧
    (tapeDelayProcess env { s with frozen := true } in1 base fb1 wowAmt
        sat1).1.writePos =
      (if s.writePos + 1 ≥ s.bufferSize then 0 else s.writePos + 1) := by
  refine ⟨?_, ?_, ?_⟩ <;> simp [tapeDelayProcess]

/-- C9: on a sample whose mode has reverb disabled, both channels'
shimmer feedback terms are set to exactly zero (whatever the shimmer
amount), and the reverb outputs are zero; consequently, on the next
sample entering a reverb-enabled mode the spring input's shimmer
feedback contribution is zero — the spring is fed exactly
`in + echo*0.15`. -/
theorem shimmer_feedback_cleared (σ τ : Type) (spring : σ → ℚ → σ × ℚ)
    (shimmer : τ → ℚ → ℚ → τ × ℚ)
    (shim inL inR echoL echoR shim2 inL2 inR2 echoL2 echoR2 : ℚ)
    (st : FrameRevState σ τ) :
    ((reverbSection spring shimmer false shim inL inR echoL echoR st).1.shimFeedL
        = 0 ∧
      (reverbSection spring shimmer false shim inL inR echoL echoR st).1.shimFeedR
        = 0 ∧
      (reverbSection spring shimmer false shim inL inR echoL echoR st).2
        = (0, 0)) ∧
    ((reverbSection spring shimmer true shim2 inL2 inR2 echoL2 echoR2
        (reverbSection spring shimmer false shim inL inR echoL echoR st).1).2.1 =
      (spring
        (reverbSection spring shimmer false shim inL inR echoL echoR st).1.springL
        (inL2 + echoL2 * 0.15)).2 ∧
     (reverbSection spring shimmer true shim2 inL2 inR2 echoL2 echoR2
        (reverbSection spring shimmer false shim inL inR echoL echoR st).1).2.2 =
      (spring
        (reverbSection spring shimmer false shim inL inR echoL echoR st).1.springR
        (inR2 + echoR2 * 0.15)).2) := by
  simp [reverbSection]

/-- C10: whenever the amount is below the 0.001 threshold,
`TapeNoise::process` returns exactly 0 and leaves the whole object state
(PRNG word and both filter states) unchanged. -/
theorem tapeNoise_early_return (s : TapeNoiseState) (amount : ℚ)
    (h : amount < 0.001) :
    tapeNoiseProcess amount s = (s, 0) := by
  unfold tapeNoiseProcess
  simp [h]

/-- Witness for C10: amount 0 is below the threshold and leaves a
concrete state untouched while producing 0. -/
theorem tapeNoise_early_return_witness :
    (0 : ℚ) < 0.001 ∧
    tapeNoiseProcess 0 ⟨3735884599, 1/2, 1/4, 9/10, 99/100⟩ =
      (⟨3735884599, 1/2, 1/4, 9/10, 99/100⟩, 0) :=
  ⟨by norm_num,
    tapeNoise_early_return ⟨3735884599, 1/2, 1/4, 9/10, 99/100⟩ 0
      (by norm_num)⟩

end SpaceEcho
